import Mathlib

/-!
Verification of the co-tasks task-orchestration engine (src/index.js).

The engine keeps a registry mapping task names to ordered handler lists,
optionally restricted by an allow-list, and executes requested tasks either
in series mode (collecting per-handler results into a labeled report) or in
pipe mode (threading one value through every handler).

JavaScript values relevant to the engine are embedded as `JSVal`; the
registry object `this.tasks` is embedded as an insertion-ordered association
list (`TaskMap`), matching the insertion-order semantics of string-keyed
JavaScript objects.  Errors thrown by the engine are embedded as `Err`, one
constructor per throw site, with `Err.message` reproducing the JavaScript
message text.  The sequential invocation contract of the external `co-utils`
library (`co.series` / `co.pipe`) is modelled from the spec as stated
sequential folds (`runHandlersS` / `runHandlersP`); real-time timeout
behavior is outside the embedding.  Executors additionally return a
trace of handler invocations (phase name, handler index) so that execution
order is observable.
-/

/-- Embedded JavaScript values: the object form keeps the literal keys in
source order, matching string-keyed object literals such as
`\x7btask: name, results: r\x7d`. -/
inductive JSVal where
  | undefined
  | null
  | bool (b : Bool)
  | num (n : Int)
  | str (s : String)
  | arr (elems : List JSVal)
  | obj (fields : List (String × JSVal))

/-- JavaScript truthiness for the embedded values (`NaN` is outside the
embedding since numbers are embedded as integers). -/
def truthy : JSVal → Bool
  | JSVal.undefined => false
  | JSVal.null => false
  | JSVal.bool b => b
  | JSVal.num n => !(n == 0)
  | JSVal.str s => !(s == "")
  | JSVal.arr _ => true
  | JSVal.obj _ => true

/-- Errors of the engine, one constructor per throw site in src/index.js,
plus `typeError` for native JavaScript errors (such as iterating `null`)
and `handlerFailure` for a handler's own failure. -/
inductive Err where
  | unknownTask (name : String)
  | taskNotAllowed (name : String) (known : List String)
  | invalidPipeValue
  | noTasksSpecified
  | typeError (msg : String)
  | handlerFailure (msg : String)
  deriving DecidableEq

/-- Message text of each error, as produced by the JavaScript code. -/
def Err.message : Err → String
  | Err.unknownTask n => "Task name " ++ n ++ " not defined!"
  | Err.taskNotAllowed n known =>
      "Task name " ++ n ++ " not defined!\nAllowed tasks are: " ++
        String.intercalate ", " known
  | Err.invalidPipeValue => "Pipe error. Returned data aren\x27t a valid pipe data object"
  | Err.noTasksSpecified => "Set allowedTasks option or use tasks argument!"
  | Err.typeError m => m
  | Err.handlerFailure m => m

/-- A handler: an invocable unit receiving (context, argument) and producing
a result or failing.  In pipe mode the argument is the current pipe value. -/
def Handler : Type := JSVal → JSVal → Except Err JSVal

/-- The registry storage `this.tasks`: a string-keyed object embedded as an
insertion-ordered association list. -/
def TaskMap : Type := List (String × List Handler)

/-- Property read `this.tasks[k]`: the first binding of key `k`, if any. -/
def getTask : TaskMap → String → Option (List Handler)
  | [], _ => none
  | (k', v) :: rest, k => if k' = k then some v else getTask rest k

/-- Property write `this.tasks[k] = v`: replaces the binding in place when
the key exists, otherwise appends it, matching JavaScript key order. -/
def setTask : TaskMap → String → List Handler → TaskMap
  | [], k, v => [(k, v)]
  | (k', v') :: rest, k, v =>
      if k' = k then (k, v) :: rest else (k', v') :: setTask rest k v

/-- The `in` operator: key presence test. -/
def containsKey (m : TaskMap) (k : String) : Bool :=
  match getTask m k with
  | some _ => true
  | none => false

/-- `Object.keys(this.tasks)`: the keys in insertion order. -/
def taskKeys (m : TaskMap) : List String := m.map Prod.fst

/-- The engine state: the `tasks` storage and the optional allow-list
(`null` when never defined). -/
structure CoTasks where
  tasks : TaskMap
  allowedTasks : Option (List String)

/-- The state produced by the constructor (the `tasksDir` loader and debug
logging are out of scope): an empty registry and no allow-list. -/
def CoTasks.new : CoTasks := { tasks := [], allowedTasks := none }

/-- The `registerTask` method: appends the handler to the list for `name`,
creating the list when absent, unless an allow-list is active and `name`
has no list yet, in which case it throws listing the known names. -/
def CoTasks.registerTask (st : CoTasks) (name : String) (fn : Handler) :
    Except Err CoTasks :=
  match getTask st.tasks name with
  | none =>
    match st.allowedTasks with
    | some _ => Except.error (Err.taskNotAllowed name (taskKeys st.tasks))
    | none => Except.ok { st with tasks := setTask st.tasks name [fn] }
  | some l => Except.ok { st with tasks := setTask st.tasks name (l ++ [fn]) }

/-- First statement of the `defineTasks` loop body: when requested, writes
an empty `pre-<name>` list, unconditionally overwriting. -/
def writePre (pre : Bool) (tasks : TaskMap) (name : String) : TaskMap :=
  if pre then setTask tasks ("pre-" ++ name) [] else tasks

/-- Second statement of the `defineTasks` loop body: writes an empty main
list only when the name is not yet a key. -/
def writeMain (tasks : TaskMap) (name : String) : TaskMap :=
  if containsKey tasks name then tasks else setTask tasks name []

/-- Third statement of the `defineTasks` loop body: when requested, writes
an empty `post-<name>` list, unconditionally overwriting. -/
def writePost (post : Bool) (tasks : TaskMap) (name : String) : TaskMap :=
  if post then setTask tasks ("post-" ++ name) [] else tasks

/-- One iteration of the `defineTasks` loop for a single name: the three
statements in source order. -/
def defineStep (pre post : Bool) (tasks : TaskMap) (name : String) : TaskMap :=
  writePost post (writeMain (writePre pre tasks name) name) name

/-- The `defineTasks` method: replaces the allow-list with exactly `names`
and performs `defineStep` for each name in order. -/
def CoTasks.defineTasks (st : CoTasks) (names : List String) (pre post : Bool) :
    CoTasks :=
  { tasks := names.foldl (defineStep pre post) st.tasks
    allowedTasks := some names }

/-- The `tasks` argument of `run`/`pipe`: omitted (`undefined`), `null`, a
single string, or an array of task names. -/
inductive TasksArg where
  | undef
  | null
  | str (s : String)
  | arr (names : List String)
  deriving DecidableEq

/-- JavaScript truthiness of the `tasks` argument. -/
def truthyTasksArg : TasksArg → Bool
  | TasksArg.undef => false
  | TasksArg.null => false
  | TasksArg.str s => !(s == "")
  | TasksArg.arr _ => true

/-- Reading `this.allowedTasks` as the iteration source of `run`: iterating
`null` with `for...of` throws a native `TypeError`. -/
def allowedOrTypeError (st : CoTasks) : Except Err (List String) :=
  match st.allowedTasks with
  | some l => Except.ok l
  | none => Except.error (Err.typeError "tasks is not iterable")

/-- Argument normalization of `run`: a falsy `tasks` argument falls back to
the allow-list (throwing a native `TypeError` when that is `null`), a
truthy string becomes a one-element array. -/
def resolveRunTasks (st : CoTasks) (tasksArg : TasksArg) :
    Except Err (List String) :=
  match tasksArg with
  | TasksArg.undef => allowedOrTypeError st
  | TasksArg.null => allowedOrTypeError st
  | TasksArg.str s => if s = "" then allowedOrTypeError st else Except.ok [s]
  | TasksArg.arr l => Except.ok l

/-- Modelled from the spec (external collaborator `co-utils`, `co.series`):
invokes the handlers sequentially in list order, each receiving the same
(context, argument), collecting results in order and failing on the first
handler failure.  Also returns the trace of invocations as (phase name,
handler index) pairs; `i` is the index of the first handler in `hs`. -/
def runHandlersS (p : String) (i : Nat) (hs : List Handler) (ctx args : JSVal) :
    Except Err (List JSVal) × List (String × Nat) :=
  match hs with
  | [] => (Except.ok [], [])
  | h :: rest =>
    match h ctx args with
    | Except.error e => (Except.error e, [(p, i)])
    | Except.ok r =>
      match runHandlersS p (i+1) rest ctx args with
      | (Except.error e, tr) => (Except.error e, (p, i) :: tr)
      | (Except.ok rs, tr) => (Except.ok (r :: rs), (p, i) :: tr)

/-- Modelled from the spec (external collaborator `co-utils`, `co.pipe`):
invokes the handlers sequentially in list order as a chain, each receiving
(context, current pipe value) and producing the next pipe value, failing on
the first handler failure.  Also returns the invocation trace. -/
def runHandlersP (p : String) (i : Nat) (hs : List Handler) (ctx v : JSVal) :
    Except Err JSVal × List (String × Nat) :=
  match hs with
  | [] => (Except.ok v, [])
  | h :: rest =>
    match h ctx v with
    | Except.error e => (Except.error e, [(p, i)])
    | Except.ok v' =>
      match runHandlersP p (i+1) rest ctx v' with
      | (res, tr) => (res, (p, i) :: tr)

/-- One phase of `run`: skipped when the list is absent or empty (no report
entry), otherwise runs the handlers and builds the report entry
`\x7btask: p, results: rs\x7d` with the literal key `task`. -/
def runPhaseT (st : CoTasks) (p : String) (ctx args : JSVal) :
    Except Err (Option JSVal) × List (String × Nat) :=
  match getTask st.tasks p with
  | none => (Except.ok none, [])
  | some hs =>
    if hs.length = 0 then (Except.ok none, [])
    else
      match runHandlersS p 0 hs ctx args with
      | (Except.error e, tr) => (Except.error e, tr)
      | (Except.ok rs, tr) =>
        (Except.ok (some (JSVal.obj [("task", JSVal.str p), ("results", JSVal.arr rs)])),
         tr)

/-- The `run` task loop: for each requested name, throws when the name has
no list at all, then runs the `pre-`, main and `post-` phases in order,
accumulating the report entries and the invocation trace. -/
def runTasksT (st : CoTasks) (names : List String) (ctx args : JSVal) :
    Except Err (List JSVal) × List (String × Nat) :=
  match names with
  | [] => (Except.ok [], [])
  | t :: rest =>
    match getTask st.tasks t with
    | none => (Except.error (Err.unknownTask t), [])
    | some _ =>
      match runPhaseT st ("pre-" ++ t) ctx args with
      | (Except.error e, tr1) => (Except.error e, tr1)
      | (Except.ok o1, tr1) =>
        match runPhaseT st t ctx args with
        | (Except.error e, tr2) => (Except.error e, tr1 ++ tr2)
        | (Except.ok o2, tr2) =>
          match runPhaseT st ("post-" ++ t) ctx args with
          | (Except.error e, tr3) => (Except.error e, tr1 ++ (tr2 ++ tr3))
          | (Except.ok o3, tr3) =>
            match runTasksT st rest ctx args with
            | (Except.error e, tr4) => (Except.error e, tr1 ++ (tr2 ++ (tr3 ++ tr4)))
            | (Except.ok entries, tr4) =>
              (Except.ok (o1.toList ++ o2.toList ++ o3.toList ++ entries),
               tr1 ++ (tr2 ++ (tr3 ++ tr4)))

/-- The `run` method: normalizes the `tasks` argument and returns the
report array on success. -/
def CoTasks.run (st : CoTasks) (tasksArg : TasksArg) (ctx args : JSVal) :
    Except Err JSVal :=
  match resolveRunTasks st tasksArg with
  | Except.error e => Except.error e
  | Except.ok names =>
    match runTasksT st names ctx args with
    | (Except.error e, _) => Except.error e
    | (Except.ok entries, _) => Except.ok (JSVal.arr entries)

/-- One phase of `pipe`: skipped when the list is absent or empty (the pipe
value passes through unchanged), otherwise chains the handlers and throws
when the resulting pipe value is falsy. -/
def pipePhaseT (st : CoTasks) (p : String) (ctx v : JSVal) :
    Except Err JSVal × List (String × Nat) :=
  match getTask st.tasks p with
  | none => (Except.ok v, [])
  | some hs =>
    if hs.length = 0 then (Except.ok v, [])
    else
      match runHandlersP p 0 hs ctx v with
      | (Except.error e, tr) => (Except.error e, tr)
      | (Except.ok v', tr) =>
        if truthy v' then (Except.ok v', tr)
        else (Except.error Err.invalidPipeValue, tr)

/-- The `pipe` task loop: for each requested name, throws when the name has
no list at all, then threads the pipe value through the `pre-`, main and
`post-` phases in order, accumulating the invocation trace. -/
def pipeTasksT (st : CoTasks) (names : List String) (ctx v : JSVal) :
    Except Err JSVal × List (String × Nat) :=
  match names with
  | [] => (Except.ok v, [])
  | t :: rest =>
    match getTask st.tasks t with
    | none => (Except.error (Err.unknownTask t), [])
    | some _ =>
      match pipePhaseT st ("pre-" ++ t) ctx v with
      | (Except.error e, tr1) => (Except.error e, tr1)
      | (Except.ok v1, tr1) =>
        match pipePhaseT st t ctx v1 with
        | (Except.error e, tr2) => (Except.error e, tr1 ++ tr2)
        | (Except.ok v2, tr2) =>
          match pipePhaseT st ("post-" ++ t) ctx v2 with
          | (Except.error e, tr3) => (Except.error e, tr1 ++ (tr2 ++ tr3))
          | (Except.ok v3, tr3) =>
            match pipeTasksT st rest ctx v3 with
            | (res, tr4) => (res, tr1 ++ (tr2 ++ (tr3 ++ tr4)))

/-- Test `typeof x === \x27number\x27 || x === undefined` used by `pipe` to
detect a missing or numeric pipe argument. -/
def isNumOrUndef : JSVal → Bool
  | JSVal.num _ => true
  | JSVal.undefined => true
  | _ => false

/-- The `pipe` method with its argument normalization: a string becomes a
one-element array; a non-array `tasks` argument shifts the arguments (the
original `tasks` value becomes the context, the original context becomes
the pipe argument) and falls back to the allow-list; a numeric or undefined
pipe argument is then replaced by the context, with the context set to
`null`; finally a `null` task list throws. -/
def CoTasks.pipe (st : CoTasks) (tasksArg : TasksArg) (ctx pipeArg : JSVal) :
    Except Err JSVal :=
  let tasksA := match tasksArg with
    | TasksArg.str s => TasksArg.arr [s]
    | x => x
  match tasksA with
  | TasksArg.arr l =>
    let p2 := if isNumOrUndef pipeArg then ctx else pipeArg
    let c2 := if isNumOrUndef pipeArg then JSVal.null else ctx
    (pipeTasksT st l c2 p2).1
  | other =>
    let ctx1 := match other with
      | TasksArg.null => JSVal.null
      | _ => JSVal.undefined
    let p2 := if isNumOrUndef ctx then ctx1 else ctx
    let c2 := if isNumOrUndef ctx then JSVal.null else ctx1
    match st.allowedTasks with
    | none => Except.error Err.noTasksSpecified
    | some l => (pipeTasksT st l c2 p2).1

/-- The invocation trace a single phase contributes on success: one entry
per registered handler, in registration order. -/
def phaseTrace (st : CoTasks) (p : String) : List (String × Nat) :=
  match getTask st.tasks p with
  | none => []
  | some hs => (List.range' 0 hs.length).map (fun k => (p, k))

/-- The canonical FIFO invocation order: tasks in requested order, phases
in pre, main, post order within each task, handlers in registration order
within each phase. -/
def canonicalTrace (st : CoTasks) (names : List String) : List (String × Nat) :=
  names.flatMap (fun t =>
    phaseTrace st ("pre-" ++ t) ++ phaseTrace st t ++ phaseTrace st ("post-" ++ t))

/-! Concrete handlers and registry states used by the claim instances. -/

/-- A handler returning the string result r1. -/
def h1 : Handler := fun _ _ => Except.ok (JSVal.str "r1")

/-- A handler returning the string result r2. -/
def h2 : Handler := fun _ _ => Except.ok (JSVal.str "r2")

/-- A handler returning the string result r3. -/
def h3 : Handler := fun _ _ => Except.ok (JSVal.str "r3")

/-- A handler returning `null`, a falsy pipe value. -/
def hNull : Handler := fun _ _ => Except.ok JSVal.null

/-- The registry after `defineTasks(['build'], true, true)`. -/
def buildDefined : CoTasks := CoTasks.defineTasks CoTasks.new ["build"] true true

/-- `buildDefined` after registering `h1` under `pre-build`. -/
def buildPre : CoTasks :=
  { tasks := [("pre-build", [h1]), ("build", []), ("post-build", [])]
    allowedTasks := some ["build"] }

/-- `buildPre` after registering `h2` under `build`. -/
def buildPreMain : CoTasks :=
  { tasks := [("pre-build", [h1]), ("build", [h2]), ("post-build", [])]
    allowedTasks := some ["build"] }

/-- `buildPreMain` after registering `h3` under `post-build`. -/
def buildAll : CoTasks :=
  { tasks := [("pre-build", [h1]), ("build", [h2]), ("post-build", [h3])]
    allowedTasks := some ["build"] }

/-- The report `run('build', ...)` actually produces on `buildAll`: entries
keyed by the literal string `task`. -/
def c1Report : JSVal :=
  JSVal.arr
    [ JSVal.obj [("task", JSVal.str "pre-build"), ("results", JSVal.arr [JSVal.str "r1"])],
      JSVal.obj [("task", JSVal.str "build"), ("results", JSVal.arr [JSVal.str "r2"])],
      JSVal.obj [("task", JSVal.str "post-build"), ("results", JSVal.arr [JSVal.str "r3"])] ]

/-- The report claimed by the spec for the same call: entries keyed by the
literal string `phase`. -/
def c1ClaimedReport : JSVal :=
  JSVal.arr
    [ JSVal.obj [("phase", JSVal.str "pre-build"), ("results", JSVal.arr [JSVal.str "r1"])],
      JSVal.obj [("phase", JSVal.str "build"), ("results", JSVal.arr [JSVal.str "r2"])],
      JSVal.obj [("phase", JSVal.str "post-build"), ("results", JSVal.arr [JSVal.str "r3"])] ]

/-- The key of the first field of the first entry of a report array, used to
distinguish the two report shapes. -/
def entryKey : JSVal → Option String
  | JSVal.arr (JSVal.obj ((k, _) :: _) :: _) => some k
  | _ => none

/-- The registry after `defineTasks(['build'], false, false)`: the bare name
only, no phase lists. -/
def bareOnly : CoTasks := CoTasks.defineTasks CoTasks.new ["build"] false false

/-- The registry after `defineTasks(['build'], true, false)`: the bare name
and a pre-created `pre-build` list. -/
def withPreList : CoTasks := CoTasks.defineTasks CoTasks.new ["build"] true false

/-- The registry after `defineTasks(['a'], false, false)`. -/
def allowA : CoTasks := CoTasks.defineTasks CoTasks.new ["a"] false false

/-- A registry with a single task whose one handler returns `null`. -/
def nullPipeState : CoTasks := { tasks := [("t", [hNull])], allowedTasks := none }

/-- A registry with one known task whose handler list is empty. -/
def emptyPhaseState : CoTasks := { tasks := [("e", [])], allowedTasks := none }

/-- The registry after `defineTasks(['known'], false, false)`. -/
def allowKnown : CoTasks := CoTasks.defineTasks CoTasks.new ["known"] false false

/-- A registry holding a handler under the phase-shaped bare name `pre-a`,
registered before any allow-list existed. -/
def preListedState : CoTasks := { tasks := [("pre-a", [h1])], allowedTasks := none }

/-- A registry with a main list under `a` and a handler under `pre-a`. -/
def mixedState : CoTasks :=
  { tasks := [("a", [h1]), ("pre-a", [h2])], allowedTasks := none }

/-! Claim theorems. -/

/-- C1 (counterexample): with the allow-list `['build']` (pre and post
enabled) and handlers h1, h2, h3 registered under `pre-build`, `build`,
`post-build`, `run('build', ctx, args)` does not resolve to the claimed
report whose entries are keyed `phase`: the entries are keyed `task`. -/
theorem claim_C1_counterexample :
    buildDefined.registerTask "pre-build" h1 = Except.ok buildPre
    ∧ buildPre.registerTask "build" h2 = Except.ok buildPreMain
    ∧ buildPreMain.registerTask "post-build" h3 = Except.ok buildAll
    ∧ buildAll.run (TasksArg.str "build") (JSVal.str "ctx") (JSVal.str "args") =
        Except.ok c1Report
    ∧ buildAll.run (TasksArg.str "build") (JSVal.str "ctx") (JSVal.str "args") ≠
        Except.ok c1ClaimedReport := by
  refine ⟨rfl, rfl, rfl, rfl, ?_⟩
  intro h
  have h2 : c1Report = c1ClaimedReport :=
    Except.ok.inj ((rfl : buildAll.run (TasksArg.str "build") (JSVal.str "ctx")
      (JSVal.str "args") = Except.ok c1Report).symm.trans h)
  have h3 := congrArg entryKey h2
  rw [show entryKey c1Report = some "task" from rfl,
      show entryKey c1ClaimedReport = some "phase" from rfl] at h3
  exact absurd (Option.some.inj h3) (by decide)

/-- C1 (amended): same scenario, but the report entries are keyed by the
literal string `task`, not `phase`: `run('build', ctx, args)` resolves to
`[\x7btask:'pre-build', results:[r1]\x7d, \x7btask:'build', results:[r2]\x7d,
\x7btask:'post-build', results:[r3]\x7d]`. -/
theorem claim_C1 :
    buildDefined.registerTask "pre-build" h1 = Except.ok buildPre
    ∧ buildPre.registerTask "build" h2 = Except.ok buildPreMain
    ∧ buildPreMain.registerTask "post-build" h3 = Except.ok buildAll
    ∧ buildAll.run (TasksArg.str "build") (JSVal.str "ctx") (JSVal.str "args") =
        Except.ok c1Report :=
  ⟨rfl, rfl, rfl, rfl⟩

/-- C2 (counterexample): calling `run` with the task names omitted on a
registry with no allow-list does not fail with the NoTasksSpecified error:
it fails with a native TypeError from iterating `null`. -/
theorem claim_C2_counterexample :
    CoTasks.run CoTasks.new TasksArg.undef JSVal.null JSVal.null =
      Except.error (Err.typeError "tasks is not iterable")
    ∧ CoTasks.run CoTasks.new TasksArg.undef JSVal.null JSVal.null ≠
      Except.error Err.noTasksSpecified := by
  refine ⟨rfl, ?_⟩
  intro h
  have h2 : Err.typeError "tasks is not iterable" = Err.noTasksSpecified :=
    Except.error.inj ((rfl : CoTasks.run CoTasks.new TasksArg.undef JSVal.null JSVal.null =
      Except.error (Err.typeError "tasks is not iterable")).symm.trans h)
  exact absurd h2 (by decide)

/-- C2 (amended): for every call to `run` in which the task names argument
is falsy and no allow-list has been defined, the call fails, but with a
native TypeError (iterating `null`), not with the NoTasksSpecified error. -/
theorem claim_C2 (st : CoTasks) (tasksArg : TasksArg) (ctx args : JSVal)
    (hal : st.allowedTasks = none) (ht : truthyTasksArg tasksArg = false) :
    st.run tasksArg ctx args = Except.error (Err.typeError "tasks is not iterable") := by
  cases tasksArg with
  | undef => simp [CoTasks.run, resolveRunTasks, allowedOrTypeError, hal]
  | null => simp [CoTasks.run, resolveRunTasks, allowedOrTypeError, hal]
  | str s =>
    have hs : s = "" := by simpa [truthyTasksArg] using ht
    subst hs
    simp [CoTasks.run, resolveRunTasks, allowedOrTypeError, hal]
  | arr l => simp [truthyTasksArg] at ht

/-- C2 (witness): the amended theorem applied to the fresh registry and an
omitted task names argument. -/
theorem claim_C2_witness :
    CoTasks.run CoTasks.new TasksArg.undef (JSVal.str "c") (JSVal.str "a") =
      Except.error (Err.typeError "tasks is not iterable") :=
  claim_C2 CoTasks.new TasksArg.undef (JSVal.str "c") (JSVal.str "a") rfl rfl

/-- C3 (counterexample): with the allow-list `['build']` defined without
pre/post registration, registering a handler under the phase name
`pre-build` does fail with TaskNotAllowed: phase names are not exempt from
the allow-list check when no list for them exists. -/
theorem claim_C3_counterexample :
    bareOnly.registerTask "pre-build" h1 =
      Except.error (Err.taskNotAllowed "pre-build" ["build"]) := rfl

/-- C3 (amended): when an allow-list is active, registering under a phase
name `pre-<x>` or `post-<x>` is subject to the same check as any other
name: it fails with TaskNotAllowed exactly when no handler list for that
exact name exists yet, and succeeds (appending the handler) when the list
was pre-created. -/
theorem claim_C3 (st : CoTasks) (x : String) (f : Handler) (al : List String)
    (hal : st.allowedTasks = some al) :
    (getTask st.tasks ("pre-" ++ x) = none →
      st.registerTask ("pre-" ++ x) f =
        Except.error (Err.taskNotAllowed ("pre-" ++ x) (taskKeys st.tasks)))
    ∧ (getTask st.tasks ("post-" ++ x) = none →
      st.registerTask ("post-" ++ x) f =
        Except.error (Err.taskNotAllowed ("post-" ++ x) (taskKeys st.tasks)))
    ∧ (∀ l, getTask st.tasks ("pre-" ++ x) = some l →
      st.registerTask ("pre-" ++ x) f =
        Except.ok { st with tasks := setTask st.tasks ("pre-" ++ x) (l ++ [f]) })
    ∧ (∀ l, getTask st.tasks ("post-" ++ x) = some l →
      st.registerTask ("post-" ++ x) f =
        Except.ok { st with tasks := setTask st.tasks ("post-" ++ x) (l ++ [f]) }) := by
  refine ⟨?_, ?_, ?_, ?_⟩
  · intro hn; simp [CoTasks.registerTask, hn, hal]
  · intro hn; simp [CoTasks.registerTask, hn, hal]
  · intro l hl; simp [CoTasks.registerTask, hl]
  · intro l hl; simp [CoTasks.registerTask, hl]

/-- C3 (witness): on `defineTasks(['build'], true, false)`, registering
under the pre-created `pre-build` succeeds, while registering under the
absent `post-build` fails with TaskNotAllowed. -/
theorem claim_C3_witness :
    withPreList.registerTask "pre-build" h1 =
      Except.ok { withPreList with tasks := setTask withPreList.tasks "pre-build" ([] ++ [h1]) }
    ∧ withPreList.registerTask "post-build" h1 =
      Except.error (Err.taskNotAllowed "post-build" (taskKeys withPreList.tasks)) :=
  ⟨(claim_C3 withPreList "build" h1 ["build"] rfl).2.2.1 [] rfl,
   (claim_C3 withPreList "build" h1 ["build"] rfl).2.1 rfl⟩

/-- C7: with an active allow-list, registering under a name with no handler
list fails with TaskNotAllowed whose message enumerates all currently known
task and phase names (the keys of the registry, in insertion order), while
registering under a name whose (possibly empty) list exists appends the
handler at the end of that list, preserving the existing handlers. -/
theorem claim_C7 (st : CoTasks) (name : String) (f : Handler) (al : List String)
    (hal : st.allowedTasks = some al) :
    (getTask st.tasks name = none →
      st.registerTask name f = Except.error (Err.taskNotAllowed name (taskKeys st.tasks))
      ∧ (Err.taskNotAllowed name (taskKeys st.tasks)).message =
          "Task name " ++ name ++ " not defined!\nAllowed tasks are: " ++
            String.intercalate ", " (taskKeys st.tasks))
    ∧ (∀ l, getTask st.tasks name = some l →
      st.registerTask name f =
        Except.ok { st with tasks := setTask st.tasks name (l ++ [f]) }) := by
  refine ⟨?_, ?_⟩
  · intro hn
    exact ⟨by simp [CoTasks.registerTask, hn, hal], rfl⟩
  · intro l hl
    simp [CoTasks.registerTask, hl]

/-- C7 (witness): on `defineTasks(['a'], false, false)`, registering under
the unknown name `c` fails with TaskNotAllowed whose message lists `a`, and
registering under the known (empty) name `a` appends the handler. -/
theorem claim_C7_witness :
    allowA.registerTask "c" h1 = Except.error (Err.taskNotAllowed "c" ["a"])
    ∧ (Err.taskNotAllowed "c" (taskKeys allowA.tasks)).message =
        "Task name c not defined!\nAllowed tasks are: a"
    ∧ allowA.registerTask "a" h1 =
        Except.ok { allowA with tasks := setTask allowA.tasks "a" ([] ++ [h1]) } :=
  ⟨((claim_C7 allowA "c" h1 ["a"] rfl).1 rfl).1,
   ((claim_C7 allowA "c" h1 ["a"] rfl).1 rfl).2,
   (claim_C7 allowA "a" h1 ["a"] rfl).2 [] rfl⟩

/-- C8: calling `pipe` with no explicit task-name sequence (the tasks
argument omitted or `null`, neither a string nor an array) on a registry
with no allow-list fails with the NoTasksSpecified error. -/
theorem claim_C8 (st : CoTasks) (ctx pipeArg : JSVal)
    (hal : st.allowedTasks = none) :
    st.pipe TasksArg.undef ctx pipeArg = Except.error Err.noTasksSpecified
    ∧ st.pipe TasksArg.null ctx pipeArg = Except.error Err.noTasksSpecified := by
  constructor <;> simp [CoTasks.pipe, hal]

/-- C8 (witness): the theorem applied to the fresh registry. -/
theorem claim_C8_witness :
    CoTasks.pipe CoTasks.new TasksArg.undef (JSVal.str "c") (JSVal.str "p") =
      Except.error Err.noTasksSpecified
    ∧ CoTasks.pipe CoTasks.new TasksArg.null (JSVal.str "c") (JSVal.str "p") =
      Except.error Err.noTasksSpecified :=
  claim_C8 CoTasks.new (JSVal.str "c") (JSVal.str "p") rfl

/-- C9: when `pipe` is called with an explicit task-name array and a pipe
argument that is a number or is undefined, the arguments are silently
rebound: the task loop runs with `null` as the context and the original
`ctx` value as the pipe value, and the supplied numeric pipe argument is
discarded entirely (any two such calls differing only in that number
agree). -/
theorem claim_C9 (st : CoTasks) (names : List String) (ctx : JSVal) (n m : Int) :
    st.pipe (TasksArg.arr names) ctx (JSVal.num n) = (pipeTasksT st names JSVal.null ctx).1
    ∧ st.pipe (TasksArg.arr names) ctx JSVal.undefined = (pipeTasksT st names JSVal.null ctx).1
    ∧ st.pipe (TasksArg.arr names) ctx (JSVal.num n) =
        st.pipe (TasksArg.arr names) ctx (JSVal.num m) :=
  ⟨rfl, rfl, rfl⟩

/-- C5: in both the run and the pipe task loop, a requested bare task name
fails with UnknownTask exactly when it has no handler list at all; a name
whose list exists but is empty (for example pre-created by the allow-list)
counts as known and the call proceeds (yielding an empty report, or the
unchanged pipe value, when its phases are absent or empty). -/
theorem claim_C5 (st : CoTasks) (t : String) (rest : List String)
    (ctx args v : JSVal) :
    (getTask st.tasks t = none →
      runTasksT st (t :: rest) ctx args = (Except.error (Err.unknownTask t), [])
      ∧ pipeTasksT st (t :: rest) ctx v = (Except.error (Err.unknownTask t), []))
    ∧ (getTask st.tasks t = some [] →
       getTask st.tasks ("pre-" ++ t) = none →
       getTask st.tasks ("post-" ++ t) = none →
       runTasksT st [t] ctx args = (Except.ok [], [])
       ∧ pipeTasksT st [t] ctx v = (Except.ok v, [])) := by
  refine ⟨?_, ?_⟩
  · intro hn
    exact ⟨by simp [runTasksT, hn], by simp [pipeTasksT, hn]⟩
  · intro hm hpre hpost
    exact ⟨by simp [runTasksT, runPhaseT, hm, hpre, hpost],
           by simp [pipeTasksT, pipePhaseT, hm, hpre, hpost]⟩

/-- C5 (witness): on `defineTasks(['known'], false, false)` the empty-listed
name `known` runs successfully, and on the fresh registry the unregistered
name `missing` fails with UnknownTask in both loops. -/
theorem claim_C5_witness :
    (runTasksT allowKnown ["known"] (JSVal.str "c") (JSVal.str "a") =
        (Except.ok [], [])
      ∧ pipeTasksT allowKnown ["known"] (JSVal.str "c") (JSVal.str "p") =
        (Except.ok (JSVal.str "p"), []))
    ∧ (runTasksT CoTasks.new ["missing"] (JSVal.str "c") (JSVal.str "a") =
        (Except.error (Err.unknownTask "missing"), [])
      ∧ pipeTasksT CoTasks.new ["missing"] (JSVal.str "c") (JSVal.str "p") =
        (Except.error (Err.unknownTask "missing"), [])) :=
  ⟨(claim_C5 allowKnown "known" [] (JSVal.str "c") (JSVal.str "a")
      (JSVal.str "p")).2 rfl rfl rfl,
   (claim_C5 CoTasks.new "missing" [] (JSVal.str "c") (JSVal.str "a")
      (JSVal.str "p")).1 rfl⟩

/-- C4: in a pipe call, when a non-empty phase's handler chain completes
with a falsy pipe value the phase fails with InvalidPipeValue; when the
processing of a task fails, the remaining tasks contribute nothing (the
result and the invocation trace are those of the failing task alone); and
with no tasks left the final pipe value is returned. -/
theorem claim_C4 (st : CoTasks) (p t : String) (rest : List String)
    (hs : List Handler) (ctx v v' : JSVal) (e : Err) (tr : List (String × Nat)) :
    (getTask st.tasks p = some hs → hs.length ≠ 0 →
      runHandlersP p 0 hs ctx v = (Except.ok v', tr) → truthy v' = false →
      pipePhaseT st p ctx v = (Except.error Err.invalidPipeValue, tr))
    ∧ (pipeTasksT st [t] ctx v = (Except.error e, tr) →
        pipeTasksT st (t :: rest) ctx v = (Except.error e, tr))
    ∧ pipeTasksT st ([] : List String) ctx v = (Except.ok v, []) := by
  refine ⟨?_, ?_, rfl⟩
  · intro hg hlen hrun htr
    simp only [pipePhaseT, hg]
    rw [if_neg hlen, hrun]
    simp [htr]
  · intro he
    cases hg : getTask st.tasks t with
    | none =>
      simp [pipeTasksT, hg] at he ⊢
      exact he
    | some hl =>
      cases hpre : pipePhaseT st ("pre-" ++ t) ctx v with
      | mk r1 tr1 =>
        cases r1 with
        | error e1 =>
          simp [pipeTasksT, hg, hpre] at he ⊢
          exact he
        | ok v1 =>
          cases hmain : pipePhaseT st t ctx v1 with
          | mk r2 tr2 =>
            cases r2 with
            | error e2 =>
              simp [pipeTasksT, hg, hpre, hmain] at he ⊢
              exact he
            | ok v2 =>
              cases hpost : pipePhaseT st ("post-" ++ t) ctx v2 with
              | mk r3 tr3 =>
                cases r3 with
                | error e3 =>
                  simp [pipeTasksT, hg, hpre, hmain, hpost] at he ⊢
                  exact he
                | ok v3 =>
                  simp [pipeTasksT, hg, hpre, hmain, hpost] at he

/-- C4 (witness): a handler returning `null` makes its phase fail with
InvalidPipeValue; an error while processing the first task makes the whole
loop return that error with no later task executed; the empty loop returns
the pipe value. -/
theorem claim_C4_witness :
    pipePhaseT nullPipeState "t" (JSVal.str "c") (JSVal.str "p") =
      (Except.error Err.invalidPipeValue, [("t", 0)])
    ∧ pipeTasksT CoTasks.new ["missing", "other"] (JSVal.str "c") (JSVal.str "p") =
      (Except.error (Err.unknownTask "missing"), [])
    ∧ pipeTasksT CoTasks.new ([] : List String) (JSVal.str "c") (JSVal.str "p") =
      (Except.ok (JSVal.str "p"), []) :=
  ⟨(claim_C4 nullPipeState "t" "t" [] [hNull] (JSVal.str "c") (JSVal.str "p")
      JSVal.null Err.invalidPipeValue [("t", 0)]).1 rfl (by decide) rfl rfl,
   (claim_C4 CoTasks.new "t" "missing" ["other"] [] (JSVal.str "c")
      (JSVal.str "p") JSVal.null (Err.unknownTask "missing") []).2.1 rfl,
   (claim_C4 CoTasks.new "t" "t" [] [] (JSVal.str "c") (JSVal.str "p")
      JSVal.null Err.invalidPipeValue []).2.2⟩

/-- On success, `runHandlersS` invokes exactly the handlers of the list, in
list order, at consecutive indices starting from `i`. -/
theorem runHandlersS_trace (hs : List Handler) : ∀ (p : String) (i : Nat)
    (ctx args : JSVal) (rs : List JSVal) (tr : List (String × Nat)),
    runHandlersS p i hs ctx args = (Except.ok rs, tr) →
    tr = (List.range' i hs.length).map (fun k => (p, k)) := by
  induction hs with
  | nil =>
    intro p i ctx args rs tr h
    simp [runHandlersS] at h
    simp [← h.2]
  | cons hd tl ih =>
    intro p i ctx args rs tr h
    simp only [runHandlersS] at h
    cases hhd : hd ctx args with
    | error e => rw [hhd] at h; simp at h
    | ok r =>
      rw [hhd] at h
      cases hrec : runHandlersS p (i + 1) tl ctx args with
      | mk res tr' =>
        rw [hrec] at h
        cases res with
        | error e => simp at h
        | ok rs' =>
          simp at h
          have htl := ih p (i + 1) ctx args rs' tr' hrec
          rw [← h.2, htl]
          simp [List.range'_succ]

/-- On success, `runHandlersP` invokes exactly the handlers of the list, in
list order, at consecutive indices starting from `i`. -/
theorem runHandlersP_trace (hs : List Handler) : ∀ (p : String) (i : Nat)
    (ctx v v' : JSVal) (tr : List (String × Nat)),
    runHandlersP p i hs ctx v = (Except.ok v', tr) →
    tr = (List.range' i hs.length).map (fun k => (p, k)) := by
  induction hs with
  | nil =>
    intro p i ctx v v' tr h
    simp [runHandlersP] at h
    simp [← h.2]
  | cons hd tl ih =>
    intro p i ctx v v' tr h
    simp only [runHandlersP] at h
    cases hhd : hd ctx v with
    | error e => rw [hhd] at h; simp at h
    | ok w =>
      rw [hhd] at h
      simp only [] at h
      cases hrec : runHandlersP p (i + 1) tl ctx w with
      | mk res tr' =>
        rw [hrec] at h
        cases res with
        | error e => simp at h
        | ok w' =>
          simp at h
          have htl := ih p (i + 1) ctx w w' tr' hrec
          obtain ⟨-, h2⟩ := h
          subst h2
          rw [htl]
          simp [List.range'_succ]

/-- On success, a run phase's invocation trace is exactly `phaseTrace`. -/
theorem runPhaseT_trace (st : CoTasks) (p : String) (ctx args : JSVal)
    (o : Option JSVal) (tr : List (String × Nat))
    (h : runPhaseT st p ctx args = (Except.ok o, tr)) : tr = phaseTrace st p := by
  cases hg : getTask st.tasks p with
  | none =>
    simp [runPhaseT, hg] at h
    simp [phaseTrace, hg, ← h.2]
  | some hs =>
    by_cases hlen : hs.length = 0
    · simp [runPhaseT, hg, hlen] at h
      simp [phaseTrace, hg, hlen, ← h.2]
    · simp only [runPhaseT, hg] at h
      rw [if_neg hlen] at h
      cases hrun : runHandlersS p 0 hs ctx args with
      | mk res tr' =>
        rw [hrun] at h
        cases res with
        | error e => simp at h
        | ok rs =>
          simp at h
          rw [← h.2, runHandlersS_trace hs p 0 ctx args rs tr' hrun]
          simp [phaseTrace, hg]

/-- On success, a pipe phase's invocation trace is exactly `phaseTrace`. -/
theorem pipePhaseT_trace (st : CoTasks) (p : String) (ctx v v' : JSVal)
    (tr : List (String × Nat))
    (h : pipePhaseT st p ctx v = (Except.ok v', tr)) : tr = phaseTrace st p := by
  cases hg : getTask st.tasks p with
  | none =>
    simp [pipePhaseT, hg] at h
    simp [phaseTrace, hg, ← h.2]
  | some hs =>
    by_cases hlen : hs.length = 0
    · simp [pipePhaseT, hg, hlen] at h
      simp [phaseTrace, hg, hlen, ← h.2]
    · simp only [pipePhaseT, hg] at h
      rw [if_neg hlen] at h
      cases hrun : runHandlersP p 0 hs ctx v with
      | mk res tr' =>
        rw [hrun] at h
        cases res with
        | error e => simp at h
        | ok w =>
          by_cases htv : truthy w
          · simp [htv] at h
            rw [← h.2, runHandlersP_trace hs p 0 ctx v w tr' hrun]
            simp [phaseTrace, hg]
          · simp [htv] at h

/-- On success, the run task loop's invocation trace is the canonical FIFO
order. -/
theorem runTasksT_trace (names : List String) : ∀ (st : CoTasks)
    (ctx args : JSVal) (entries : List JSVal) (tr : List (String × Nat)),
    runTasksT st names ctx args = (Except.ok entries, tr) →
    tr = canonicalTrace st names := by
  induction names with
  | nil =>
    intro st ctx args entries tr h
    simp [runTasksT] at h
    simp [canonicalTrace, ← h.2]
  | cons t rest ih =>
    intro st ctx args entries tr h
    simp only [runTasksT] at h
    cases hg : getTask st.tasks t with
    | none => rw [hg] at h; simp at h
    | some hl =>
      rw [hg] at h
      cases hpre : runPhaseT st ("pre-" ++ t) ctx args with
      | mk r1 tr1 =>
        rw [hpre] at h
        cases r1 with
        | error e => simp at h
        | ok o1 =>
          cases hmain : runPhaseT st t ctx args with
          | mk r2 tr2 =>
            rw [hmain] at h
            cases r2 with
            | error e => simp at h
            | ok o2 =>
              cases hpost : runPhaseT st ("post-" ++ t) ctx args with
              | mk r3 tr3 =>
                rw [hpost] at h
                cases r3 with
                | error e => simp at h
                | ok o3 =>
                  cases hrec : runTasksT st rest ctx args with
                  | mk r4 tr4 =>
                    rw [hrec] at h
                    cases r4 with
                    | error e => simp at h
                    | ok ent4 =>
                      simp at h
                      rw [← h.2, runPhaseT_trace st ("pre-" ++ t) ctx args o1 tr1 hpre,
                          runPhaseT_trace st t ctx args o2 tr2 hmain,
                          runPhaseT_trace st ("post-" ++ t) ctx args o3 tr3 hpost,
                          ih st ctx args ent4 tr4 hrec]
                      simp [canonicalTrace, List.append_assoc]

/-- On success, the pipe task loop's invocation trace is the canonical FIFO
order. -/
theorem pipeTasksT_trace (names : List String) : ∀ (st : CoTasks)
    (ctx v v' : JSVal) (tr : List (String × Nat)),
    pipeTasksT st names ctx v = (Except.ok v', tr) →
    tr = canonicalTrace st names := by
  induction names with
  | nil =>
    intro st ctx v v' tr h
    simp [pipeTasksT] at h
    simp [canonicalTrace, ← h.2]
  | cons t rest ih =>
    intro st ctx v v' tr h
    simp only [pipeTasksT] at h
    cases hg : getTask st.tasks t with
    | none => rw [hg] at h; simp at h
    | some hl =>
      rw [hg] at h
      simp only [] at h
      cases hpre : pipePhaseT st ("pre-" ++ t) ctx v with
      | mk r1 tr1 =>
        rw [hpre] at h
        cases r1 with
        | error e => simp at h
        | ok v1 =>
          simp only [] at h
          cases hmain : pipePhaseT st t ctx v1 with
          | mk r2 tr2 =>
            rw [hmain] at h
            cases r2 with
            | error e => simp at h
            | ok v2 =>
              simp only [] at h
              cases hpost : pipePhaseT st ("post-" ++ t) ctx v2 with
              | mk r3 tr3 =>
                rw [hpost] at h
                cases r3 with
                | error e => simp at h
                | ok v3 =>
                  simp only [] at h
                  cases hrec : pipeTasksT st rest ctx v3 with
                  | mk r4 tr4 =>
                    rw [hrec] at h
                    cases r4 with
                    | error e => simp at h
                    | ok v4 =>
                      simp at h
                      obtain ⟨-, h2⟩ := h
                      subst h2
                      rw [pipePhaseT_trace st ("pre-" ++ t) ctx v v1 tr1 hpre,
                          pipePhaseT_trace st t ctx v1 v2 tr2 hmain,
                          pipePhaseT_trace st ("post-" ++ t) ctx v2 v3 tr3 hpost,
                          ih st ctx v3 v4 tr4 hrec]
                      simp [canonicalTrace, List.append_assoc]

/-- C6: both loops execute handlers in strict deterministic FIFO order: on
success the invocation trace equals the canonical order (tasks in requested
order, phases pre, main, post within each task, handlers in registration
order within each phase); and a phase with zero registered handlers (absent
or empty list) contributes no report entry in series mode and leaves the
pipe value unchanged in pipe mode. -/
theorem claim_C6 (st : CoTasks) (names : List String) (p : String)
    (ctx args v : JSVal) :
    (∀ entries tr, runTasksT st names ctx args = (Except.ok entries, tr) →
        tr = canonicalTrace st names)
    ∧ (∀ v' tr, pipeTasksT st names ctx v = (Except.ok v', tr) →
        tr = canonicalTrace st names)
    ∧ ((getTask st.tasks p = none ∨ getTask st.tasks p = some []) →
        runPhaseT st p ctx args = (Except.ok none, [])
        ∧ pipePhaseT st p ctx v = (Except.ok v, [])) := by
  refine ⟨fun entries tr h => runTasksT_trace names st ctx args entries tr h,
          fun v' tr h => pipeTasksT_trace names st ctx v v' tr h, ?_⟩
  rintro (hg | hg)
  · exact ⟨by simp [runPhaseT, hg], by simp [pipePhaseT, hg]⟩
  · exact ⟨by simp [runPhaseT, hg], by simp [pipePhaseT, hg]⟩

/-- C6 (witness): on the fully registered `build` scenario the series trace
is the canonical pre, main, post order; on the empty-listed `known` task
the pipe trace is empty and canonical; and an empty phase produces no
report entry and passes the pipe value through. -/
theorem claim_C6_witness :
    ([("pre-build", 0), ("build", 0), ("post-build", 0)] : List (String × Nat)) =
      canonicalTrace buildAll ["build"]
    ∧ ([] : List (String × Nat)) = canonicalTrace allowKnown ["known"]
    ∧ (runPhaseT emptyPhaseState "e" (JSVal.str "c") (JSVal.str "a") =
        (Except.ok none, [])
      ∧ pipePhaseT emptyPhaseState "e" (JSVal.str "c") (JSVal.str "p") =
        (Except.ok (JSVal.str "p"), [])) :=
  ⟨(claim_C6 buildAll ["build"] "e" (JSVal.str "c") (JSVal.str "a")
      (JSVal.str "p")).1
      [ JSVal.obj [("task", JSVal.str "pre-build"), ("results", JSVal.arr [JSVal.str "r1"])],
        JSVal.obj [("task", JSVal.str "build"), ("results", JSVal.arr [JSVal.str "r2"])],
        JSVal.obj [("task", JSVal.str "post-build"), ("results", JSVal.arr [JSVal.str "r3"])] ]
      [("pre-build", 0), ("build", 0), ("post-build", 0)] rfl,
   (claim_C6 allowKnown ["known"] "e" (JSVal.str "c") (JSVal.str "a")
      (JSVal.str "p")).2.1 (JSVal.str "p") [] rfl,
   (claim_C6 emptyPhaseState [] "e" (JSVal.str "c") (JSVal.str "a")
      (JSVal.str "p")).2.2 (Or.inr rfl)⟩

/-- Reading after writing a key: the written value at that key, the old
value elsewhere. -/
theorem getTask_setTask (m : TaskMap) (k k' : String) (v : List Handler) :
    getTask (setTask m k v) k' = if k = k' then some v else getTask m k' := by
  induction m with
  | nil => by_cases hk : k = k' <;> simp [setTask, getTask, hk]
  | cons a rest ih =>
    obtain ⟨ak, av⟩ := a
    by_cases hak : ak = k
    · subst hak
      by_cases hk : ak = k' <;> simp [setTask, getTask, hk]
    · by_cases hak' : ak = k'
      · subst hak'
        have hka : ¬(k = ak) := fun he => hak he.symm
        simp [setTask, getTask, hak, hka]
      · simp [setTask, getTask, hak, hak', ih]

/-- The pre write leaves every other key unchanged. -/
theorem writePre_preserve (pre : Bool) (tasks : TaskMap) (m n : String)
    (hne : pre = true → n ≠ "pre-" ++ m) :
    getTask (writePre pre tasks m) n = getTask tasks n := by
  cases pre with
  | false => rfl
  | true =>
    have h := hne rfl
    have hne' : ¬("pre-" ++ m = n) := fun he => h he.symm
    simp [writePre, getTask_setTask, hne']

/-- The post write leaves every other key unchanged. -/
theorem writePost_preserve (post : Bool) (tasks : TaskMap) (m n : String)
    (hne : post = true → n ≠ "post-" ++ m) :
    getTask (writePost post tasks m) n = getTask tasks n := by
  cases post with
  | false => rfl
  | true =>
    have h := hne rfl
    have hne' : ¬("post-" ++ m = n) := fun he => h he.symm
    simp [writePost, getTask_setTask, hne']

/-- The main write leaves every existing binding unchanged. -/
theorem writeMain_preserve (tasks : TaskMap) (m n : String) (l : List Handler)
    (hn : getTask tasks n = some l) :
    getTask (writeMain tasks m) n = some l := by
  unfold writeMain
  by_cases hc : containsKey tasks m = true
  · simp [hc, hn]
  · rw [if_neg hc, getTask_setTask]
    by_cases hmn : m = n
    · subst hmn
      exact absurd (by unfold containsKey; rw [hn]) hc
    · rw [if_neg hmn]; exact hn

/-- Writing an empty list anywhere keeps an already-empty binding empty. -/
theorem setTask_keeps_empty (tasks : TaskMap) (k p : String)
    (h : getTask tasks p = some []) :
    getTask (setTask tasks k []) p = some [] := by
  rw [getTask_setTask]
  by_cases hk : k = p <;> simp [hk, h]

/-- The pre write keeps an already-empty binding empty. -/
theorem writePre_keeps_empty (pre : Bool) (tasks : TaskMap) (m p : String)
    (h : getTask tasks p = some []) :
    getTask (writePre pre tasks m) p = some [] := by
  cases pre with
  | false => exact h
  | true => exact setTask_keeps_empty tasks _ p h

/-- The post write keeps an already-empty binding empty. -/
theorem writePost_keeps_empty (post : Bool) (tasks : TaskMap) (m p : String)
    (h : getTask tasks p = some []) :
    getTask (writePost post tasks m) p = some [] := by
  cases post with
  | false => exact h
  | true => exact setTask_keeps_empty tasks _ p h

/-- The main write keeps an already-empty binding empty. -/
theorem writeMain_keeps_empty (tasks : TaskMap) (m p : String)
    (h : getTask tasks p = some []) :
    getTask (writeMain tasks m) p = some [] := by
  unfold writeMain
  by_cases hc : containsKey tasks m = true
  · simp [hc, h]
  · rw [if_neg hc]; exact setTask_keeps_empty tasks m p h

/-- One `defineTasks` iteration keeps an already-empty binding empty. -/
theorem defineStep_keeps_empty (pre post : Bool) (tasks : TaskMap) (m p : String)
    (h : getTask tasks p = some []) :
    getTask (defineStep pre post tasks m) p = some [] :=
  writePost_keeps_empty post _ m p
    (writeMain_keeps_empty _ m p (writePre_keeps_empty pre tasks m p h))

/-- One `defineTasks` iteration for `m` preserves an existing binding of
`n` when `n` is not a phase key written for `m`. -/
theorem defineStep_preserve (pre post : Bool) (tasks : TaskMap) (m n : String)
    (l : List Handler) (hn : getTask tasks n = some l)
    (hne1 : pre = true → n ≠ "pre-" ++ m)
    (hne2 : post = true → n ≠ "post-" ++ m) :
    getTask (defineStep pre post tasks m) n = some l := by
  unfold defineStep
  have a : getTask (writePre pre tasks m) n = some l := by
    rw [writePre_preserve pre tasks m n hne1]; exact hn
  have b : getTask (writeMain (writePre pre tasks m) m) n = some l :=
    writeMain_preserve _ m n l a
  rw [writePost_preserve post _ m n hne2]
  exact b

/-- One `defineTasks` iteration for `n` with the pre flag set leaves
`pre-<n>` bound to the empty list. -/
theorem defineStep_creates_pre (post : Bool) (tasks : TaskMap) (n : String) :
    getTask (defineStep true post tasks n) ("pre-" ++ n) = some [] := by
  unfold defineStep
  apply writePost_keeps_empty
  apply writeMain_keeps_empty
  simp [writePre, getTask_setTask]

/-- One `defineTasks` iteration for `n` with the post flag set leaves
`post-<n>` bound to the empty list. -/
theorem defineStep_creates_post (pre : Bool) (tasks : TaskMap) (n : String) :
    getTask (defineStep pre true tasks n) ("post-" ++ n) = some [] := by
  unfold defineStep writePost
  simp [getTask_setTask]

/-- The whole `defineTasks` loop keeps an already-empty binding empty. -/
theorem foldl_keeps_empty (names : List String) : ∀ (pre post : Bool)
    (tasks : TaskMap) (p : String), getTask tasks p = some [] →
    getTask (List.foldl (defineStep pre post) tasks names) p = some [] := by
  induction names with
  | nil => intro _ _ _ _ h; simpa using h
  | cons m ms ih =>
    intro pre post tasks p h
    simp only [List.foldl_cons]
    exact ih pre post _ p (defineStep_keeps_empty pre post tasks m p h)

/-- The whole `defineTasks` loop preserves an existing binding of `n` when
`n` collides with no phase key written for any listed name. -/
theorem foldl_preserve (names : List String) : ∀ (pre post : Bool)
    (tasks : TaskMap) (n : String) (l : List Handler),
    getTask tasks n = some l →
    (∀ m ∈ names, (pre = true → n ≠ "pre-" ++ m) ∧ (post = true → n ≠ "post-" ++ m)) →
    getTask (List.foldl (defineStep pre post) tasks names) n = some l := by
  induction names with
  | nil => intro _ _ _ _ _ h _; simpa using h
  | cons m ms ih =>
    intro pre post tasks n l hn hcoll
    simp only [List.foldl_cons]
    refine ih pre post _ n l ?_ ?_
    · exact defineStep_preserve pre post tasks m n l hn
        (hcoll m (by simp)).1 (hcoll m (by simp)).2
    · intro m' hm'
      exact hcoll m' (by simp [hm'])

/-- After the whole `defineTasks` loop with the pre flag set, every listed
name has `pre-<name>` bound to the empty list. -/
theorem foldl_creates_pre (names : List String) : ∀ (post : Bool)
    (tasks : TaskMap) (n : String), n ∈ names →
    getTask (List.foldl (defineStep true post) tasks names) ("pre-" ++ n) = some [] := by
  induction names with
  | nil => intro _ _ _ h; cases h
  | cons m ms ih =>
    intro post tasks n hmem
    simp only [List.foldl_cons]
    rcases List.mem_cons.mp hmem with he | hm
    · subst he
      exact foldl_keeps_empty ms true post _ _ (defineStep_creates_pre post tasks n)
    · exact ih post _ n hm

/-- After the whole `defineTasks` loop with the post flag set, every listed
name has `post-<name>` bound to the empty list. -/
theorem foldl_creates_post (names : List String) : ∀ (pre : Bool)
    (tasks : TaskMap) (n : String), n ∈ names →
    getTask (List.foldl (defineStep pre true) tasks names) ("post-" ++ n) = some [] := by
  induction names with
  | nil => intro _ _ _ h; cases h
  | cons m ms ih =>
    intro pre tasks n hmem
    simp only [List.foldl_cons]
    rcases List.mem_cons.mp hmem with he | hm
    · subst he
      exact foldl_keeps_empty ms pre true _ _ (defineStep_creates_post pre tasks n)
    · exact ih pre _ n hm

/-- C10 (counterexample): the claim's main-list preservation fails when a
listed name is also a phase key of another listed name: with a handler
registered under the bare name `pre-a`, calling
`defineTasks(['a', 'pre-a'], true, false)` replaces the main list of the
listed name `pre-a` (length 1 before) with an empty list (length 0). -/
theorem claim_C10_counterexample :
    Option.map List.length (getTask preListedState.tasks "pre-a") = some 1
    ∧ "pre-a" ∈ ["a", "pre-a"]
    ∧ Option.map List.length
        (getTask (preListedState.defineTasks ["a", "pre-a"] true false).tasks "pre-a") =
        some 0 :=
  ⟨rfl, by simp, rfl⟩

/-- C10 (amended): for every call `defineTasks(names, registerPre,
registerPost)` and every name in `names`: an already-existing main handler
list for that name is left unchanged provided the name is not `pre-<m>`
(when registerPre is set) or `post-<m>` (when registerPost is set) for any
`m` in `names`; and when registerPre (respectively registerPost) is set,
the `pre-<name>` (respectively `post-<name>`) list is unconditionally
replaced with a new empty list, discarding any handlers previously
registered under that phase name. -/
theorem claim_C10 (st : CoTasks) (names : List String) (n : String)
    (pre post : Bool) (hmem : n ∈ names) :
    ((∀ m ∈ names, (pre = true → n ≠ "pre-" ++ m) ∧ (post = true → n ≠ "post-" ++ m)) →
      ∀ l, getTask st.tasks n = some l →
        getTask (st.defineTasks names pre post).tasks n = some l)
    ∧ (pre = true → getTask (st.defineTasks names pre post).tasks ("pre-" ++ n) = some [])
    ∧ (post = true → getTask (st.defineTasks names pre post).tasks ("post-" ++ n) = some []) := by
  refine ⟨?_, ?_, ?_⟩
  · intro hcoll l hl
    exact foldl_preserve names pre post st.tasks n l hl hcoll
  · intro hp; subst hp
    exact foldl_creates_pre names post st.tasks n hmem
  · intro hp; subst hp
    exact foldl_creates_post names pre st.tasks n hmem

/-- C10 (witness): on a registry holding `h1` under `a` and `h2` under
`pre-a`, `defineTasks(['a'], true, true)` preserves the main list of `a`
and replaces `pre-a` and `post-a` with empty lists, discarding `h2`. -/
theorem claim_C10_witness :
    getTask (mixedState.defineTasks ["a"] true true).tasks "a" = some [h1]
    ∧ getTask (mixedState.defineTasks ["a"] true true).tasks "pre-a" = some []
    ∧ getTask (mixedState.defineTasks ["a"] true true).tasks "post-a" = some [] :=
  ⟨(claim_C10 mixedState ["a"] "a" true true (by simp)).1
      (by
        intro m hm
        simp only [List.mem_singleton] at hm
        subst hm
        exact ⟨fun _ => by decide, fun _ => by decide⟩) [h1] rfl,
   (claim_C10 mixedState ["a"] "a" true true (by simp)).2.1 rfl,
   (claim_C10 mixedState ["a"] "a" true true (by simp)).2.2 rfl⟩
